import Mathlib

/-!
Shallow embedding of the `simple-icp` registration core: `src/point3d.rs`,
`src/voxel_hash_map.rs` and `src/deskew.rs`.

Modelling conventions:
* floating-point values (`f32` / `f64`) are modelled as real numbers, so the
  lossless `f32 -> f64` widenings in the source are identities;
* `std::time::Instant` and the Unix timestamps are modelled as real-valued
  times in seconds, with `Instant::duration_since` saturating at zero as in
  the Rust standard library;
* `HashMap<Vector3<i32>, Vec<Point3d>>` is modelled as an association list
  whose lookups take the first matching key;
* a Rust panic (`unwrap` of `None`, indexing into an empty vector) is
  modelled by the embedded function returning `none`.
-/

/-- Three-dimensional vector of reals, modelling `nalgebra::Vector3` of
`f32`/`f64` components. -/
@[ext]
structure Vec3 where
  x : ℝ
  y : ℝ
  z : ℝ

/-- Componentwise subtraction of vectors. -/
def subV (a b : Vec3) : Vec3 := ⟨a.x - b.x, a.y - b.y, a.z - b.z⟩

/-- Componentwise addition of vectors. -/
def addV (a b : Vec3) : Vec3 := ⟨a.x + b.x, a.y + b.y, a.z + b.z⟩

/-- Componentwise negation of a vector. -/
def negV (a : Vec3) : Vec3 := ⟨-a.x, -a.y, -a.z⟩

/-- Scalar multiplication of a vector. -/
def smulV (c : ℝ) (a : Vec3) : Vec3 := ⟨c * a.x, c * a.y, c * a.z⟩

/-- Cross product of two vectors. -/
def crossV (a b : Vec3) : Vec3 :=
  ⟨a.y * b.z - a.z * b.y, a.z * b.x - a.x * b.z, a.x * b.y - a.y * b.x⟩

/-- Sum of squared components, modelling `nalgebra`'s `norm_squared`. -/
def quadranceV (a : Vec3) : ℝ := a.x * a.x + a.y * a.y + a.z * a.z

/-- Euclidean norm, modelling `nalgebra`'s `norm`. -/
noncomputable def normV (a : Vec3) : ℝ := Real.sqrt (quadranceV a)

/-- Euclidean distance, modelling `nalgebra`'s `metric_distance`. -/
noncomputable def metricDistance (a b : Vec3) : ℝ := normV (subV a b)

/-- Quaternion with real components, scalar part `w` first, modelling the
`nalgebra` quaternions that store the rotation of an `Isometry3<f64>`. -/
structure Quat where
  w : ℝ
  x : ℝ
  y : ℝ
  z : ℝ

/-- Hamilton product of quaternions, as computed by `nalgebra`. -/
def qmul (a b : Quat) : Quat :=
  ⟨a.w * b.w - a.x * b.x - a.y * b.y - a.z * b.z,
   a.w * b.x + a.x * b.w + a.y * b.z - a.z * b.y,
   a.w * b.y - a.x * b.z + a.y * b.w + a.z * b.x,
   a.w * b.z + a.x * b.y - a.y * b.x + a.z * b.w⟩

/-- Quaternion conjugate; `nalgebra`'s `UnitQuaternion::inverse`. -/
def conjQ (a : Quat) : Quat := ⟨a.w, -a.x, -a.y, -a.z⟩

/-- Imaginary (vector) part of a quaternion. -/
def qvec (a : Quat) : Vec3 := ⟨a.x, a.y, a.z⟩

/-- Rotation of a vector by a (unit) quaternion, using the optimised formula
implemented by `nalgebra` for `UnitQuaternion * Vector3`:
`t = 2 (q_v x v); v + w t + q_v x t`. -/
def rotateVec (q : Quat) (v : Vec3) : Vec3 :=
  let t := smulV 2 (crossV (qvec q) v)
  addV (addV v (smulV q.w t)) (crossV (qvec q) t)

/-- Quaternion dot product, used by spherical interpolation. -/
def dotQ (a b : Quat) : ℝ := a.w * b.w + a.x * b.x + a.y * b.y + a.z * b.z

/-- Scaling of a quaternion by a real. -/
def qscale (c : ℝ) (a : Quat) : Quat := ⟨c * a.w, c * a.x, c * a.y, c * a.z⟩

/-- Componentwise sum of quaternions. -/
def qadd (a b : Quat) : Quat := ⟨a.w + b.w, a.x + b.x, a.y + b.y, a.z + b.z⟩

/-- Two-argument arctangent, modelling `f64::atan2` via the complex
argument. -/
noncomputable def atan2 (y x : ℝ) : ℝ := Complex.arg ⟨x, y⟩

/-- Rotation angle of a (unit) quaternion, as computed by `nalgebra`'s
`UnitQuaternion::angle`. -/
noncomputable def quatAngle (q : Quat) : ℝ := 2 * atan2 (normV (qvec q)) |q.w|

/-- Angle between two rotations, `nalgebra`'s `UnitQuaternion::angle_to`
(the angle of `self.inverse() * other`). -/
noncomputable def angleTo (a b : Quat) : ℝ := quatAngle (qmul (conjQ a) b)

/-- Spherical linear interpolation of (unit) quaternions, modelling
`nalgebra`'s `UnitQuaternion::slerp`.  None of the theorems below depend on
the value of this function: every verified control path returns before
interpolating. -/
noncomputable def slerpQ (a b : Quat) (t : ℝ) : Quat :=
  let d := dotQ a b
  let s : ℝ := if d < 0 then -1 else 1
  let theta := Real.arccos (s * d)
  if Real.sin theta = 0 then a
  else
    qadd (qscale (Real.sin ((1 - t) * theta) / Real.sin theta) a)
      (qscale (s * Real.sin (t * theta) / Real.sin theta) b)

/-- Linear interpolation of vectors, `nalgebra`'s `Vector3::lerp`. -/
def lerpV (a b : Vec3) (t : ℝ) : Vec3 := addV a (smulV t (subV b a))

/-- Rigid transform (rotation plus translation), modelling
`nalgebra::Isometry3<f64>` with the rotation stored as a unit quaternion. -/
structure Iso where
  rot : Quat
  tr : Vec3

/-- Composition of isometries, `iso1 * iso2` in `nalgebra`:
the rotations are multiplied and the translation is
`rot1 * translation2 + translation1`. -/
def isoMul (a b : Iso) : Iso := ⟨qmul a.rot b.rot, addV (rotateVec a.rot b.tr) a.tr⟩

/-- Inverse of an isometry, `nalgebra`'s `Isometry3::inverse`:
the rotation is conjugated and the translation becomes
`rot_inv * (-translation)`. -/
def isoInv (a : Iso) : Iso := ⟨conjQ a.rot, rotateVec (conjQ a.rot) (negV a.tr)⟩

/-- Application of an isometry to a point: `iso * point` in `nalgebra`. -/
def applyIso (a : Iso) (v : Vec3) : Vec3 := addV (rotateVec a.rot v) a.tr

/-- Point of the LiDAR scan, `Point3d` in `src/point3d.rs`.  The capture
time (`timestamp` there, read as `global_timestamp` by `src/deskew.rs`) is a
real-valued time in seconds. -/
structure Point3d where
  x : ℝ
  y : ℝ
  z : ℝ
  intensity : ℝ
  timestamp : ℝ

/-- `Point3d::to_na_vec_f64`: the spatial coordinates as a vector (the
`f32 -> f64` widening is lossless, hence the identity here). -/
def Point3d.to_na_vec_f64 (p : Point3d) : Vec3 := ⟨p.x, p.y, p.z⟩

/-- Voxel key: an integer coordinate triple, `nalgebra::Vector3<i32>` in the
source (the `i32` range is not modelled; no claim depends on overflow). -/
abbrev Voxel := ℤ × ℤ × ℤ

/-- Modelled from the spec: `voxel_util::na_vec_to_voxel` (the file
`src/voxel_util.rs` is not part of the provided sources).  Per the spec, the
voxel key is the integer triple obtained by floor-dividing a point's
coordinates by `voxel_size`. -/
noncomputable def na_vec_to_voxel (v : Vec3) (voxel_size : ℝ) : Voxel :=
  (⌊v.x / voxel_size⌋, ⌊v.y / voxel_size⌋, ⌊v.z / voxel_size⌋)

/-- Modelled from the spec: `voxel_util::point_to_voxel` (missing from the
provided sources); the same floor-division key computed from a point's
coordinates. -/
noncomputable def point_to_voxel (p : Point3d) (voxel_size : ℝ) : Voxel :=
  na_vec_to_voxel p.to_na_vec_f64 voxel_size

/-- Lookup in the association list modelling the hash map (first matching
key). -/
def mapGet (l : List (Voxel × List Point3d)) (k : Voxel) : Option (List Point3d) :=
  (l.find? (fun kv => decide (kv.1 = k))).map Prod.snd

/-- In-place replacement of the cell stored at key `k`, modelling mutation
through `HashMap::get_mut`. -/
def mapSet (l : List (Voxel × List Point3d)) (k : Voxel) (c : List Point3d) :
    List (Voxel × List Point3d) :=
  l.map (fun kv => if kv.1 = k then (kv.1, c) else kv)

/-- The spatial voxel map, `VoxelHashMap` in `src/voxel_hash_map.rs`. -/
structure VoxelHashMap where
  voxel_size : ℝ
  max_distance : ℝ
  max_points_per_voxel : ℕ
  map : List (Voxel × List Point3d)
  last_batch_points : List Point3d
  max_point_age_seconds : Option ℝ

/-- `VoxelHashMap::default_values`. -/
def VoxelHashMap.default_values : VoxelHashMap :=
  ⟨1, 100, 20, [], [], some 30⟩

/-- The derived minimum resolution
`sqrt(voxel_size * voxel_size / max_points_per_voxel)` computed at the top of
`VoxelHashMap::add_points`. -/
noncomputable def VoxelHashMap.map_resolution (m : VoxelHashMap) : ℝ :=
  Real.sqrt (m.voxel_size * m.voxel_size / (m.max_points_per_voxel : ℝ))

open Classical in
/-- One step of the `for_each` loop in `VoxelHashMap::add_points`; the state
is the pair of the map under construction and the accepted batch so far. -/
noncomputable def addPointStep (m : VoxelHashMap)
    (st : List (Voxel × List Point3d) × List Point3d) (pt : Point3d) :
    List (Voxel × List Point3d) × List Point3d :=
  let voxel := na_vec_to_voxel pt.to_na_vec_f64 m.voxel_size
  match mapGet st.1 voxel with
  | some voxel_points =>
      if m.max_points_per_voxel ≤ voxel_points.length ∨
          ∃ vpt ∈ voxel_points,
            normV (subV vpt.to_na_vec_f64 pt.to_na_vec_f64) < m.map_resolution then
        st
      else
        (mapSet st.1 voxel (voxel_points ++ [pt]), st.2 ++ [pt])
  | none => (st.1 ++ [(voxel, [pt])], st.2 ++ [pt])

/-- `VoxelHashMap::add_points`: insert a batch, dropping points whose cell is
at capacity or already holds a point within the minimum resolution, and
record the accepted points as the last batch. -/
noncomputable def VoxelHashMap.add_points (m : VoxelHashMap) (points : List Point3d) :
    VoxelHashMap :=
  let st := points.foldl (addPointStep m) (m.map, ([] : List Point3d))
  { m with map := st.1, last_batch_points := st.2 }

/-- The test applied to a cell by `VoxelHashMap::remove_points_too_far`:
`(vps[0] - current_origin).norm_squared() >= max_distance2`.  The empty-cell
branch is never taken when every cell is non-empty; in the source the
indexing `vps[0]` would panic there. -/
def cellTooFar (current_origin : Vec3) (max_distance2 : ℝ) : List Point3d → Prop
  | [] => True
  | vpt :: _ => max_distance2 ≤ quadranceV (subV vpt.to_na_vec_f64 current_origin)

open Classical in
/-- `VoxelHashMap::remove_points_too_far`: drop every cell whose first point
is at squared distance at least `max_distance^2` from the origin.  Returns
`none` exactly when some cell is empty, in which case the source's `vps[0]`
indexing panics. -/
noncomputable def VoxelHashMap.remove_points_too_far (m : VoxelHashMap)
    (current_origin : Vec3) : Option VoxelHashMap :=
  if ∀ kv ∈ m.map, kv.2 ≠ ([] : List Point3d) then
    some { m with
      map := m.map.filter (fun kv =>
        decide (¬ cellTooFar current_origin (m.max_distance * m.max_distance) kv.2)) }
  else none

open Classical in
/-- `VoxelHashMap::remove_aged_points`: retain in every cell only the points
whose age (`now - timestamp`) is at most the configured limit, then drop the
cells left empty.  `now` stands for the wall-clock reading of
`Point3d::age_seconds`. -/
noncomputable def VoxelHashMap.remove_aged_points (m : VoxelHashMap) (now : ℝ) :
    VoxelHashMap :=
  match m.max_point_age_seconds with
  | some max_age =>
      { m with
        map := (m.map.map (fun kv =>
            (kv.1, kv.2.filter (fun p => decide (now - p.timestamp ≤ max_age))))).filter
          (fun kv => !kv.2.isEmpty) }
  | none => m

/-- `VoxelHashMap::update`: insert the batch, evict far cells, then (only
when an age limit is configured) evict aged points, in that order. -/
noncomputable def VoxelHashMap.update (m : VoxelHashMap) (points : List Point3d)
    (current_origin : Vec3) (now : ℝ) : Option VoxelHashMap :=
  match (m.add_points points).remove_points_too_far current_origin with
  | none => none
  | some m2 =>
      some (if m2.max_point_age_seconds.isSome then m2.remove_aged_points now else m2)

/-- `VoxelHashMap::get_na_points`: flatten all cells into one list of
coordinate vectors.  The source reduces the iterator of per-cell lists and
calls `unwrap` on the result, so an empty map panics; the panic is modelled
by `none`. -/
def VoxelHashMap.get_na_points (m : VoxelHashMap) : Option (List Vec3) :=
  match m.map.map (fun kv => kv.2.map Point3d.to_na_vec_f64) with
  | [] => none
  | h :: t => some (t.foldl (fun acc e => acc ++ e) h)

/-- The per-point transformation performed by `VoxelHashMap::update_with_pose`:
the coordinates are moved into the global frame while intensity and timestamp
are copied from the input point. -/
def transformPoint (t_origin_current : Iso) (pt : Point3d) : Point3d :=
  let transformed_na := applyIso t_origin_current pt.to_na_vec_f64
  { x := transformed_na.x, y := transformed_na.y, z := transformed_na.z,
    intensity := pt.intensity, timestamp := pt.timestamp }

/-- `VoxelHashMap::update_with_pose`: transform the batch by the pose and
update the map around the pose's translation. -/
noncomputable def VoxelHashMap.update_with_pose (m : VoxelHashMap)
    (points : List Point3d) (t_origin_current : Iso) (now : ℝ) : Option VoxelHashMap :=
  m.update (points.map (transformPoint t_origin_current)) t_origin_current.tr now

/-- Integer interval `[lo, hi)` as a list, modelling a Rust `lo..hi` range
loop. -/
def intRange (lo hi : ℤ) : List ℤ :=
  (List.range (hi - lo).toNat).map (fun (i : ℕ) => lo + (i : ℤ))

/-- `get_adjacent_voxels` from `src/voxel_hash_map.rs`: the cube of voxel
keys within `adjacent_voxels` of `voxel` in every coordinate, in row-major
order. -/
def get_adjacent_voxels (voxel : Voxel) (adjacent_voxels : ℤ) : List Voxel :=
  (intRange (voxel.1 - adjacent_voxels) (voxel.1 + adjacent_voxels + 1)).flatMap (fun x =>
    (intRange (voxel.2.1 - adjacent_voxels) (voxel.2.1 + adjacent_voxels + 1)).flatMap (fun y =>
      (intRange (voxel.2.2 - adjacent_voxels) (voxel.2.2 + adjacent_voxels + 1)).map
        (fun z => ((x, y, z) : Voxel))))

/-- Left fold selecting the element minimising `f`, keeping the earlier
element on a strict win, as Rust's `Iterator::reduce` does in both reductions
of `get_closest_neighbor`. -/
noncomputable def minByFold {α : Type} (f : α → ℝ) (h : α) (t : List α) : α :=
  t.foldl (fun acc x => if f acc < f x then acc else x) h

/-- The reduction over one occupied cell in `get_closest_neighbor`: the
stored point closest to the query.  An empty cell makes the source's
`unwrap` panic, modelled by `none`. -/
noncomputable def cellNeighbor (pn : Vec3) : List Point3d → Option (Point3d × ℝ)
  | [] => none
  | h :: t =>
      let n := minByFold (fun pt => normV (subV pt.to_na_vec_f64 pn)) h t
      some (n, normV (subV n.to_na_vec_f64 pn))

/-- The `filter_map` over the 27 queried voxels in `get_closest_neighbor`:
unoccupied voxels are skipped, every occupied voxel contributes its closest
stored point.  `none` models the panic on an empty stored cell. -/
noncomputable def collectNeighbors (m : VoxelHashMap) (pn : Vec3) :
    List Voxel → Option (List (Point3d × ℝ))
  | [] => some []
  | v :: rest =>
      match mapGet m.map v with
      | none => collectNeighbors m pn rest
      | some voxel_points =>
          match cellNeighbor pn voxel_points with
          | none => none
          | some nb => (collectNeighbors m pn rest).map (fun l => nb :: l)

/-- The final reduction of `get_closest_neighbor` over the per-cell
candidates, keeping the one with the smaller distance. -/
noncomputable def reduceNeighbors : List (Point3d × ℝ) → Option (Point3d × ℝ)
  | [] => none
  | h :: t => some (minByFold Prod.snd h t)

/-- The 3x3x3 block of voxel keys queried for a point, as computed inside
`get_closest_neighbor`. -/
noncomputable def VoxelHashMap.query_voxels (m : VoxelHashMap) (point : Point3d) :
    List Voxel :=
  get_adjacent_voxels (point_to_voxel point m.voxel_size) 1

/-- `VoxelHashMap::get_closest_neighbor`: the closest stored point to the
query among the 27 neighbouring voxels together with its distance, `none`
when every queried voxel is unoccupied.  The outer `Option` models the panic
on a (never reachable) empty stored cell. -/
noncomputable def VoxelHashMap.get_closest_neighbor (m : VoxelHashMap)
    (point : Point3d) : Option (Option (Point3d × ℝ)) :=
  (collectNeighbors m point.to_na_vec_f64 (m.query_voxels point)).map reduceNeighbors

/-- `f64::EPSILON`, the machine epsilon `2^-52` used by the degenerate-bracket
guard of `interpolate_pose_at_time`. -/
noncomputable def EPSILON : ℝ := 1 / 4503599627370496

/-- The consecutive-pair condition enforced by `validate_poses`: strictly
increasing sample times, rotational delta at most `max_angle_between_poses`
and translational delta at most `max_distance_between_poses`. -/
def validPair (max_distance_between_poses max_angle_between_poses : ℝ)
    (p1 p2 : ℝ × Iso) : Prop :=
  p1.1 < p2.1 ∧ angleTo p1.2.rot p2.2.rot ≤ max_angle_between_poses ∧
    metricDistance p1.2.tr p2.2.tr ≤ max_distance_between_poses

/-- `validate_poses` from `src/deskew.rs`: every consecutive pair of pose
samples satisfies the sanity bounds. -/
def validate_poses (poses : List (ℝ × Iso))
    (max_distance_between_poses max_angle_between_poses : ℝ) : Prop :=
  List.Chain' (validPair max_distance_between_poses max_angle_between_poses) poses

open Classical in
/-- The body of the bracketing branch of `interpolate_pose_at_time`: locate
the bracket with `partition_point`, return the earlier pose when the bracket
spans at most `f64::EPSILON`, otherwise interpolate.  Durations saturate at
zero as `Instant::duration_since` does. -/
noncomputable def interpCore (poses : List (ℝ × Iso)) (time : ℝ) : Option Iso :=
  let idx := (poses.takeWhile (fun q => decide (q.1 ≤ time))).length
  if idx = 0 ∨ poses.length ≤ idx then none
  else
    match poses.get? (idx - 1), poses.get? idx with
    | some prev, some next =>
        let total_duration := max (next.1 - prev.1) 0
        if total_duration ≤ EPSILON then some prev.2
        else
          let current_duration := max (time - prev.1) 0
          let alpha := current_duration / total_duration
          some ⟨slerpQ prev.2.rot next.2.rot alpha, lerpV prev.2.tr next.2.tr alpha⟩
    | _, _ => none

open Classical in
/-- `interpolate_pose_at_time` from `src/deskew.rs`: clamp to the first pose
at or before the first sample time and to the last pose at or after the last
sample time, otherwise interpolate inside the bracketing pair. -/
noncomputable def interpolate_pose_at_time (poses : List (ℝ × Iso)) (time : ℝ) :
    Option Iso :=
  match poses with
  | [] => none
  | first :: rest =>
      let last_pose := (first :: rest).getLast (List.cons_ne_nil first rest)
      if time ≤ first.1 then some first.2
      else if last_pose.1 ≤ time then some last_pose.2
      else interpCore (first :: rest) time

/-- Overwriting of a point's spatial coordinates, as the deskew loop does
with the corrected position. -/
def setCoords (pt : Point3d) (v : Vec3) : Point3d :=
  { pt with x := v.x, y := v.y, z := v.z }

/-- The maximum of the batch's capture times (`Iterator::max`), `none` on an
empty batch. -/
noncomputable def listMaxR : List ℝ → Option ℝ
  | [] => none
  | h :: t => some (t.foldl max h)

open Classical in
/-- `deskew_scan` from `src/deskew.rs`: skip entirely when the batch or the
pose history is empty or the history fails validation; otherwise project
every point into the frame of the scan-end pose through the interpolated
pose at its capture time. -/
noncomputable def deskew_scan (points : List Point3d) (poses : List (ℝ × Iso))
    (max_angle_between_poses max_distance_between_poses : ℝ) : List Point3d :=
  if points = [] ∨ poses = [] ∨
      ¬ validate_poses poses max_distance_between_poses max_angle_between_poses then
    points
  else
    let scan_end_time :=
      match listMaxR (points.map (fun p => p.timestamp)) with
      | some t => t
      | none =>
          match points.getLast? with
          | some p => p.timestamp
          | none => 0
    match interpolate_pose_at_time poses scan_end_time with
    | none => points
    | some pose_at_scan_end =>
        let pose_at_scan_end_inv := isoInv pose_at_scan_end
        points.map (fun point =>
          match interpolate_pose_at_time poses point.timestamp with
          | some pose_at_point_time =>
              setCoords point
                (applyIso (isoMul pose_at_scan_end_inv pose_at_point_time)
                  point.to_na_vec_f64)
          | none => point)

/-! ### Basic lemmas about the association-list map -/

theorem mapGet_nil (k : Voxel) : mapGet [] k = none := rfl

theorem mapGet_cons (k' : Voxel) (c : List Point3d) (t : List (Voxel × List Point3d))
    (k : Voxel) :
    mapGet ((k', c) :: t) k = if k' = k then some c else mapGet t k := by
  by_cases h : k' = k <;> simp [mapGet, List.find?_cons, h]

theorem mapGet_eq_some_mem {l : List (Voxel × List Point3d)} {k : Voxel}
    {c : List Point3d} (h : mapGet l k = some c) : (k, c) ∈ l := by
  unfold mapGet at h
  cases hf : l.find? (fun kv => decide (kv.1 = k)) with
  | none => rw [hf] at h; simp at h
  | some kv =>
      rw [hf] at h
      simp only [Option.map_some', Option.some.injEq] at h
      have hmem := List.mem_of_find?_eq_some hf
      have hkey := List.find?_some hf
      simp only [decide_eq_true_eq] at hkey
      cases kv with
      | mk k1 c1 =>
        simp only at hkey h
        rw [← hkey, ← h] at *
        exact hmem

theorem foldl_preserves_mem {α σ : Type} (f : σ → α → σ) (P : σ → Prop) :
    ∀ (l : List α), (∀ s a, a ∈ l → P s → P (f s a)) → ∀ s, P s → P (l.foldl f s) := by
  intro l
  induction l with
  | nil => intro _ s hs; simpa using hs
  | cons a t ih =>
      intro hf s hs
      simp only [List.foldl_cons]
      exact ih (fun s2 b hb hs2 => hf s2 b (List.mem_cons_of_mem a hb) hs2) (f s a)
        (hf s a (List.mem_cons_self a t) hs)

/-! ### The correction transform of a single-pose history is the identity -/

theorem applyIso_inv_self (T : Iso) (v : Vec3) :
    applyIso (isoMul (isoInv T) T) v = v := by
  cases T with
  | mk r t =>
      cases r; cases t; cases v
      simp only [applyIso, isoMul, isoInv, rotateVec, qmul, conjQ, qvec, crossV, addV, subV,
        smulV, negV, Vec3.mk.injEq]
      refine ⟨by ring, by ring, by ring⟩

theorem setCoords_to_na_vec (pt : Point3d) : setCoords pt pt.to_na_vec_f64 = pt := by
  cases pt; rfl

theorem interpolate_single (q : ℝ × Iso) (t : ℝ) :
    interpolate_pose_at_time [q] t = some q.2 := by
  by_cases h : t ≤ q.1
  · simp [interpolate_pose_at_time, h]
  · have h2 : q.1 ≤ t := le_of_not_le h
    simp [interpolate_pose_at_time, h, h2, List.getLast]

/-- C1: the flattened-point-list accessor does not return gracefully on the
empty map: `get_na_points` reduces an empty iterator and unwraps the `None`,
which panics; the modelled function yields `none` (the panic marker) on the
freshly constructed map. -/
theorem get_na_points_empty_map_panics :
    VoxelHashMap.default_values.get_na_points = none := rfl

/-- C5: whenever the pose history fails validation (a non-increasing time
pair, an excessive rotational delta or an excessive translational delta),
`deskew_scan` aborts before touching the batch, leaving every point
unmodified. -/
theorem deskew_scan_unchanged_of_invalid_history (points : List Point3d)
    (poses : List (ℝ × Iso)) (max_angle_between_poses max_distance_between_poses : ℝ)
    (h : ¬ validate_poses poses max_distance_between_poses max_angle_between_poses) :
    deskew_scan points poses max_angle_between_poses max_distance_between_poses
      = points := by
  unfold deskew_scan
  rw [if_pos (Or.inr (Or.inr h))]

/-- Witness for C5: a concrete two-sample history with non-increasing times
fails validation and the deskew leaves the (empty) batch unchanged. -/
theorem deskew_scan_unchanged_of_invalid_history_witness :
    ¬ validate_poses
        [((1 : ℝ), (⟨⟨1, 0, 0, 0⟩, ⟨0, 0, 0⟩⟩ : Iso)),
          ((0 : ℝ), ⟨⟨1, 0, 0, 0⟩, ⟨0, 0, 0⟩⟩)] 1 1 ∧
      deskew_scan [⟨1, 2, 3, 4, 5⟩]
        [((1 : ℝ), (⟨⟨1, 0, 0, 0⟩, ⟨0, 0, 0⟩⟩ : Iso)),
          ((0 : ℝ), ⟨⟨1, 0, 0, 0⟩, ⟨0, 0, 0⟩⟩)] 1 1 = [⟨1, 2, 3, 4, 5⟩] := by
  have hnv : ¬ validate_poses
      [((1 : ℝ), (⟨⟨1, 0, 0, 0⟩, ⟨0, 0, 0⟩⟩ : Iso)),
        ((0 : ℝ), ⟨⟨1, 0, 0, 0⟩, ⟨0, 0, 0⟩⟩)] 1 1 := by
    intro hch
    have := (List.chain'_cons.mp hch).1
    exact absurd this.1 (by norm_num)
  exact ⟨hnv, deskew_scan_unchanged_of_invalid_history _ _ _ _ hnv⟩

/-- C2: with fewer than two pose samples `deskew_scan` leaves every point of
the batch unchanged: an empty history short-circuits, and a single-sample
history always interpolates to that sample, whose correction transform
`pose.inverse() * pose` is the identity on the coordinates. -/
theorem deskew_scan_noop_of_short_history (points : List Point3d)
    (poses : List (ℝ × Iso)) (max_angle_between_poses max_distance_between_poses : ℝ)
    (h : poses.length < 2) :
    deskew_scan points poses max_angle_between_poses max_distance_between_poses
      = points := by
  cases poses with
  | nil =>
      unfold deskew_scan
      rw [if_pos (Or.inr (Or.inl rfl))]
  | cons q rest =>
      cases rest with
      | cons q2 t => simp only [List.length_cons] at h; omega
      | nil =>
          by_cases hp : points = []
          · unfold deskew_scan
            rw [if_pos (Or.inl hp)]
          · have hval : validate_poses [q] max_distance_between_poses
                max_angle_between_poses := List.chain'_singleton q
            have hcond : ¬ (points = [] ∨ ([q] : List (ℝ × Iso)) = [] ∨
                ¬ validate_poses [q] max_distance_between_poses max_angle_between_poses) := by
              rintro (h1 | h2 | h3)
              · exact hp h1
              · exact List.cons_ne_nil q [] h2
              · exact h3 hval
            unfold deskew_scan
            rw [if_neg hcond]
            simp only [interpolate_single, applyIso_inv_self, setCoords_to_na_vec]
            exact List.map_id points

/-- Witness for C2: a concrete point batch and a one-sample history. -/
theorem deskew_scan_noop_of_short_history_witness :
    ([((0 : ℝ), (⟨⟨1, 0, 0, 0⟩, ⟨0, 0, 0⟩⟩ : Iso))] : List (ℝ × Iso)).length < 2 ∧
      deskew_scan [⟨1, 2, 3, 4, 5⟩] [((0 : ℝ), ⟨⟨1, 0, 0, 0⟩, ⟨0, 0, 0⟩⟩)] 1 1
        = [⟨1, 2, 3, 4, 5⟩] :=
  ⟨by norm_num, deskew_scan_noop_of_short_history _ _ _ _ (by norm_num)⟩

/-! ### C8: clamping and degenerate-bracket behaviour of pose interpolation -/

/-- C8: for a non-empty strictly time-ordered pose history,
`interpolate_pose_at_time` returns the first pose at or before the first
sample time, the last pose at or after the last sample time, and for a
bracketing pair spanning at most `f64::EPSILON` the earlier pose of the
bracket, without ever dividing by the bracket duration. -/
theorem interpolate_pose_at_time_clamps (poses : List (ℝ × Iso)) (time : ℝ)
    (hsorted : List.Chain' (fun a b => a.1 < b.1) poses) :
    (∀ first rest, poses = first :: rest → time ≤ first.1 →
        interpolate_pose_at_time poses time = some first.2) ∧
    (∀ lastp, poses.getLast? = some lastp → lastp.1 ≤ time →
        interpolate_pose_at_time poses time = some lastp.2) ∧
    (∀ first rest lastp prev next, poses = first :: rest →
        poses.getLast? = some lastp → first.1 < time → time < lastp.1 →
        poses.get? ((poses.takeWhile (fun q => decide (q.1 ≤ time))).length - 1)
          = some prev →
        poses.get? (poses.takeWhile (fun q => decide (q.1 ≤ time))).length
          = some next →
        max (next.1 - prev.1) 0 ≤ EPSILON →
        interpolate_pose_at_time poses time = some prev.2) := by
  refine ⟨?_, ?_, ?_⟩
  · rintro first rest rfl hle
    simp only [interpolate_pose_at_time]
    rw [if_pos hle]
  · intro lastp hlastp hle
    cases poses with
    | nil => simp at hlastp
    | cons first rest =>
        have hgl : (first :: rest).getLast (List.cons_ne_nil first rest) = lastp := by
          rwa [List.getLast?_eq_getLast _ (List.cons_ne_nil first rest),
            Option.some.injEq] at hlastp
        simp only [interpolate_pose_at_time]
        by_cases hfirst : time ≤ first.1
        · rw [if_pos hfirst]
          cases rest with
          | nil => simp at hgl; rw [hgl]
          | cons b t =>
              exfalso
              haveI : IsTrans (ℝ × Iso) (fun a c => a.1 < c.1) :=
                ⟨fun _ _ _ hac hce => lt_trans hac hce⟩
              have hpair : List.Pairwise (fun a c => a.1 < c.1) (first :: b :: t) :=
                List.chain'_iff_pairwise.mp hsorted
              have hmem : (first :: b :: t).getLast (List.cons_ne_nil first (b :: t))
                  ∈ b :: t := by
                rw [List.getLast_cons (List.cons_ne_nil b t)]
                exact List.getLast_mem (List.cons_ne_nil b t)
              have hlt : first.1 < lastp.1 := by
                rw [← hgl]
                exact (List.pairwise_cons.mp hpair).1 _ hmem
              exact absurd (le_trans hle hfirst) (not_le.mpr hlt)
        · rw [if_neg hfirst, hgl, if_pos hle]
  · rintro first rest lastp prev next rfl hlastp h1 h2 hprev hnext hspan
    have hgl : (first :: rest).getLast (List.cons_ne_nil first rest) = lastp := by
      rwa [List.getLast?_eq_getLast _ (List.cons_ne_nil first rest),
        Option.some.injEq] at hlastp
    simp only [interpolate_pose_at_time]
    rw [if_neg (not_le.mpr h1), hgl, if_neg (not_le.mpr h2)]
    have hidx0 : ((first :: rest).takeWhile (fun q => decide (q.1 ≤ time))).length ≠ 0 := by
      rw [List.takeWhile_cons_of_pos (by simpa using le_of_lt h1)]
      simp
    have hidxlen : ((first :: rest).takeWhile (fun q => decide (q.1 ≤ time))).length <
        (first :: rest).length := by
      obtain ⟨hlt, _⟩ := List.get?_eq_some.mp hnext
      exact hlt
    simp only [interpCore]
    rw [if_neg (by push_neg; exact ⟨hidx0, hidxlen⟩)]
    simp only [hprev, hnext]
    rw [if_pos hspan]

/-- Witness for C8: a concrete strictly ordered two-sample history, queried
after its last sample time. -/
theorem interpolate_pose_at_time_clamps_witness :
    List.Chain' (fun a b => a.1 < b.1)
      ([((0 : ℝ), (⟨⟨1, 0, 0, 0⟩, ⟨0, 0, 0⟩⟩ : Iso)),
        ((1 : ℝ), ⟨⟨1, 0, 0, 0⟩, ⟨2, 0, 0⟩⟩)] : List (ℝ × Iso)) ∧
      interpolate_pose_at_time
        [((0 : ℝ), (⟨⟨1, 0, 0, 0⟩, ⟨0, 0, 0⟩⟩ : Iso)),
          ((1 : ℝ), ⟨⟨1, 0, 0, 0⟩, ⟨2, 0, 0⟩⟩)] 2
        = some ⟨⟨1, 0, 0, 0⟩, ⟨2, 0, 0⟩⟩ := by
  have hch : List.Chain' (fun a b => a.1 < b.1)
      ([((0 : ℝ), (⟨⟨1, 0, 0, 0⟩, ⟨0, 0, 0⟩⟩ : Iso)),
        ((1 : ℝ), ⟨⟨1, 0, 0, 0⟩, ⟨2, 0, 0⟩⟩)] : List (ℝ × Iso)) :=
    List.chain'_cons.mpr ⟨by norm_num, List.chain'_singleton _⟩
  refine ⟨hch, ?_⟩
  exact (interpolate_pose_at_time_clamps _ 2 hch).2.1
    ((1 : ℝ), ⟨⟨1, 0, 0, 0⟩, ⟨2, 0, 0⟩⟩) rfl (by norm_num)

/-! ### Machinery for the voxel-map invariants -/

theorem mapGet_append_right {l1 : List (Voxel × List Point3d)}
    (l2 : List (Voxel × List Point3d)) (k : Voxel) (h : mapGet l1 k = none) :
    mapGet (l1 ++ l2) k = mapGet l2 k := by
  induction l1 with
  | nil => rfl
  | cons kv t ih =>
      cases kv with
      | mk k1 c1 =>
          rw [mapGet_cons] at h
          by_cases hk : k1 = k
          · rw [if_pos hk] at h; exact absurd h (by simp)
          · rw [if_neg hk] at h
            rw [List.cons_append, mapGet_cons, if_neg hk]
            exact ih h

theorem minByFold_cons {α : Type} (f : α → ℝ) (h a : α) (t : List α) :
    minByFold f h (a :: t) = minByFold f (if f h < f a then h else a) t := rfl

theorem minByFold_mem {α : Type} (f : α → ℝ) :
    ∀ (t : List α) (h : α), minByFold f h t ∈ h :: t
  | [], h => by simp [minByFold]
  | a :: t, h => by
      rw [minByFold_cons]
      have hm := minByFold_mem f t (if f h < f a then h else a)
      rcases List.mem_cons.mp hm with h1 | h2
      · rw [h1]
        by_cases hc : f h < f a
        · rw [if_pos hc]; exact List.mem_cons_self _ _
        · rw [if_neg hc]
          exact List.mem_cons_of_mem _ (List.mem_cons_self _ _)
      · exact List.mem_cons_of_mem _ (List.mem_cons_of_mem _ h2)

theorem minByFold_le {α : Type} (f : α → ℝ) :
    ∀ (t : List α) (h : α), ∀ x ∈ h :: t, f (minByFold f h t) ≤ f x
  | [], h, x, hx => by
      simp only [List.mem_singleton] at hx
      rw [hx]; simp [minByFold]
  | a :: t, h, x, hx => by
      rw [minByFold_cons]
      have hhead : f (minByFold f (if f h < f a then h else a) t)
          ≤ f (if f h < f a then h else a) :=
        minByFold_le f t _ _ (List.mem_cons_self _ _)
      rcases List.mem_cons.mp hx with rfl | hx2
      · refine le_trans hhead ?_
        by_cases hc : f x < f a
        · rw [if_pos hc]
        · rw [if_neg hc]; exact le_of_not_lt hc
      · rcases List.mem_cons.mp hx2 with rfl | hx3
        · refine le_trans hhead ?_
          by_cases hc : f h < f x
          · rw [if_pos hc]; exact le_of_lt hc
          · rw [if_neg hc]
        · exact minByFold_le f t _ x (List.mem_cons_of_mem _ hx3)

/-- Cell-wise preservation through `add_points`: any property of cells that
holds of fresh one-point cells and is preserved by pushing a batch point into
a below-capacity cell holds of every cell after the insertion. -/
theorem add_points_cells (m : VoxelHashMap) (points : List Point3d)
    (Q : List Point3d → Prop)
    (hnew : ∀ pt ∈ points, Q [pt])
    (hpush : ∀ cell, ∀ pt ∈ points, Q cell → cell.length < m.max_points_per_voxel →
      Q (cell ++ [pt]))
    (hinit : ∀ kv ∈ m.map, Q kv.2) :
    ∀ kv ∈ (m.add_points points).map, Q kv.2 := by
  have key : ∀ kv ∈ (points.foldl (addPointStep m) (m.map, ([] : List Point3d))).1,
      Q kv.2 := by
    refine foldl_preserves_mem (addPointStep m)
      (fun st => ∀ kv ∈ st.1, Q kv.2) points ?_ _ hinit
    intro s pt hpt hs
    unfold addPointStep
    cases hget : mapGet s.1 (na_vec_to_voxel pt.to_na_vec_f64 m.voxel_size) with
    | none =>
        simp only [hget]
        intro kv hkv
        rcases List.mem_append.mp hkv with hold | hnewm
        · exact hs kv hold
        · rw [List.mem_singleton] at hnewm
          rw [hnewm]
          exact hnew pt hpt
    | some cell =>
        simp only [hget]
        by_cases hcond : m.max_points_per_voxel ≤ cell.length ∨
            ∃ vpt ∈ cell,
              normV (subV vpt.to_na_vec_f64 pt.to_na_vec_f64) < m.map_resolution
        · rw [if_pos hcond]; exact hs
        · rw [if_neg hcond]
          intro kv hkv
          rcases List.mem_map.mp hkv with ⟨kv0, hkv0, heq⟩
          have hlen : cell.length < m.max_points_per_voxel :=
            lt_of_not_le (fun hle => hcond (Or.inl hle))
          have hQcell : Q cell := hs _ (mapGet_eq_some_mem hget)
          by_cases hk : kv0.1 = na_vec_to_voxel pt.to_na_vec_f64 m.voxel_size
          · rw [if_pos hk] at heq
            rw [← heq]
            exact hpush cell pt hpt hQcell hlen
          · rw [if_neg hk] at heq
            rw [← heq]
            exact hs kv0 hkv0
  exact key

open Classical in
theorem remove_points_too_far_eq_some (m : VoxelHashMap) (o : Vec3)
    (h : ∀ kv ∈ m.map, kv.2 ≠ ([] : List Point3d)) :
    m.remove_points_too_far o = some { m with
      map := m.map.filter (fun kv =>
        decide (¬ cellTooFar o (m.max_distance * m.max_distance) kv.2)) } := by
  unfold VoxelHashMap.remove_points_too_far
  rw [if_pos h]

open Classical in
theorem remove_points_too_far_some_inv (m : VoxelHashMap) (o : Vec3)
    {m1 : VoxelHashMap} (h : m.remove_points_too_far o = some m1) :
    m1.voxel_size = m.voxel_size ∧ m1.max_distance = m.max_distance ∧
      m1.max_points_per_voxel = m.max_points_per_voxel ∧
      m1.max_point_age_seconds = m.max_point_age_seconds ∧
      ∀ kv ∈ m1.map, kv ∈ m.map ∧
        ¬ cellTooFar o (m.max_distance * m.max_distance) kv.2 := by
  unfold VoxelHashMap.remove_points_too_far at h
  by_cases hc : ∀ kv ∈ m.map, kv.2 ≠ ([] : List Point3d)
  · rw [if_pos hc, Option.some.injEq] at h
    subst h
    refine ⟨rfl, rfl, rfl, rfl, ?_⟩
    intro kv hkv
    have hmem := List.mem_filter.mp hkv
    exact ⟨hmem.1, of_decide_eq_true hmem.2⟩
  · rw [if_neg hc] at h; exact absurd h (by simp)

theorem update_eq_some (m : VoxelHashMap) (points : List Point3d) (o : Vec3) (now : ℝ)
    {m2 : VoxelHashMap} (h : m.update points o now = some m2) :
    ∃ m1, (m.add_points points).remove_points_too_far o = some m1 ∧
      m2 = if m1.max_point_age_seconds.isSome then m1.remove_aged_points now else m1 := by
  unfold VoxelHashMap.update at h
  cases hrem : (m.add_points points).remove_points_too_far o with
  | none => rw [hrem] at h; exact absurd h (by simp)
  | some m1 =>
      rw [hrem, Option.some.injEq] at h
      exact ⟨m1, rfl, h.symm⟩

theorem remove_aged_points_none (m : VoxelHashMap) (now : ℝ)
    (h : m.max_point_age_seconds = none) : m.remove_aged_points now = m := by
  unfold VoxelHashMap.remove_aged_points
  rw [h]

theorem remove_aged_points_some (m : VoxelHashMap) (now max_age : ℝ)
    (h : m.max_point_age_seconds = some max_age) :
    m.remove_aged_points now = { m with
      map := (m.map.map (fun kv =>
          (kv.1, kv.2.filter (fun p => decide (now - p.timestamp ≤ max_age))))).filter
        (fun kv => !kv.2.isEmpty) } := by
  unfold VoxelHashMap.remove_aged_points
  rw [h]

theorem mem_aged_map {m : VoxelHashMap} {now max_age : ℝ}
    (h : m.max_point_age_seconds = some max_age) {kv : Voxel × List Point3d}
    (hkv : kv ∈ (m.remove_aged_points now).map) :
    kv.2 ≠ ([] : List Point3d) ∧ ∃ kv0 ∈ m.map, kv.1 = kv0.1 ∧
      kv.2 = kv0.2.filter (fun p => decide (now - p.timestamp ≤ max_age)) := by
  rw [remove_aged_points_some m now max_age h] at hkv
  have h1 := List.mem_filter.mp hkv
  rcases List.mem_map.mp h1.1 with ⟨kv0, hkv0, heq⟩
  constructor
  · intro hnil
    have := h1.2
    rw [hnil] at this
    simp at this
  · exact ⟨kv0, hkv0, by rw [← heq], by rw [← heq]⟩

theorem add_points_age (m : VoxelHashMap) (points : List Point3d) :
    (m.add_points points).max_point_age_seconds = m.max_point_age_seconds := rfl

set_option maxHeartbeats 1000000 in
theorem collectNeighbors_spec (m : VoxelHashMap) (pn : Vec3)
    (hne : ∀ kv ∈ m.map, kv.2 ≠ ([] : List Point3d)) :
    ∀ vs : List Voxel, ∃ L, collectNeighbors m pn vs = some L ∧
      (L = [] ↔ ∀ v ∈ vs, mapGet m.map v = none) ∧
      (∀ nb ∈ L, ∃ v ∈ vs, ∃ cell, mapGet m.map v = some cell ∧ nb.1 ∈ cell ∧
        nb.2 = normV (subV nb.1.to_na_vec_f64 pn)) ∧
      (∀ v ∈ vs, ∀ cell, mapGet m.map v = some cell → ∀ q ∈ cell,
        ∃ nb ∈ L, nb.2 ≤ normV (subV q.to_na_vec_f64 pn)) := by
  intro vs
  induction vs with
  | nil => exact ⟨[], rfl, by simp, by simp, by simp⟩
  | cons v rest ih =>
      obtain ⟨L, hL, hLnil, hLmem, hLmin⟩ := ih
      cases hget : mapGet m.map v with
      | none =>
          refine ⟨L, ?_, ?_, ?_, ?_⟩
          · simp only [collectNeighbors, hget]; exact hL
          · rw [hLnil]
            constructor
            · intro hall u hu
              rcases List.mem_cons.mp hu with rfl | hu2
              · exact hget
              · exact hall u hu2
            · intro hall u hu
              exact hall u (List.mem_cons_of_mem v hu)
          · intro nb hnb
            obtain ⟨u, hu, hrest⟩ := hLmem nb hnb
            exact ⟨u, List.mem_cons_of_mem v hu, hrest⟩
          · intro u hu cell hcell q hq
            rcases List.mem_cons.mp hu with rfl | hu2
            · rw [hget] at hcell; exact absurd hcell (by simp)
            · exact hLmin u hu2 cell hcell q hq
      | some cell =>
          have hcne : cell ≠ [] := hne _ (mapGet_eq_some_mem hget)
          cases cell with
          | nil => exact absurd rfl hcne
          | cons hpt tpt =>
              refine ⟨(minByFold (fun pt => normV (subV pt.to_na_vec_f64 pn)) hpt tpt,
                  normV (subV (minByFold (fun pt => normV (subV pt.to_na_vec_f64 pn))
                    hpt tpt).to_na_vec_f64 pn)) :: L, ?_, ?_, ?_, ?_⟩
              · simp only [collectNeighbors, hget, cellNeighbor, hL, Option.map_some']
              · constructor
                · intro h; exact absurd h (by simp)
                · intro hall
                  exact absurd (hall v (List.mem_cons_self v rest)) (by rw [hget]; simp)
              · intro nb hnb
                rcases List.mem_cons.mp hnb with rfl | hnb2
                · exact ⟨v, List.mem_cons_self v rest, hpt :: tpt, hget,
                    minByFold_mem _ tpt hpt, rfl⟩
                · obtain ⟨u, hu, hrest⟩ := hLmem nb hnb2
                  exact ⟨u, List.mem_cons_of_mem v hu, hrest⟩
              · intro u hu cell2 hcell q hq
                rcases List.mem_cons.mp hu with rfl | hu2
                · rw [hget, Option.some.injEq] at hcell
                  subst hcell
                  have hle := minByFold_le (fun pt => normV (subV pt.to_na_vec_f64 pn))
                    tpt hpt q hq
                  refine ⟨_, List.mem_cons_self _ _, ?_⟩
                  exact hle
                · obtain ⟨nb, hnbL, hle⟩ := hLmin u hu2 cell2 hcell q hq
                  exact ⟨nb, List.mem_cons_of_mem _ hnbL, hle⟩

open Classical in
/-- C9: every cell of the voxel map is non-empty, the invariant is preserved
by `update` (insertion creates cells only with their first point, age-based
eviction drops emptied cells), and under it neither the `vps[0]` indexing of
far-distance eviction nor the per-cell `unwrap` of the nearest-neighbour
search can fail: `update` returns a result and `get_closest_neighbor` never
hits the panic marker. -/
theorem update_preserves_nonempty_cells (m : VoxelHashMap)
    (hne : ∀ kv ∈ m.map, kv.2 ≠ ([] : List Point3d)) :
    (∀ points current_origin now, ∃ m2,
        m.update points current_origin now = some m2 ∧
          ∀ kv ∈ m2.map, kv.2 ≠ ([] : List Point3d)) ∧
    (∀ point, m.get_closest_neighbor point ≠ none) := by
  constructor
  · intro points o now
    have haddne : ∀ kv ∈ (m.add_points points).map, kv.2 ≠ ([] : List Point3d) :=
      add_points_cells m points (fun c => c ≠ [])
        (fun pt _ => by simp) (fun cell pt _ _ _ => by simp) hne
    have hrem := remove_points_too_far_eq_some (m.add_points points) o haddne
    obtain ⟨-, -, -, hma, hmem⟩ := remove_points_too_far_some_inv _ o hrem
    have hm1ne : ∀ kv ∈ ({ m.add_points points with
        map := (m.add_points points).map.filter (fun kv =>
          decide (¬ cellTooFar o ((m.add_points points).max_distance *
            (m.add_points points).max_distance) kv.2)) } : VoxelHashMap).map,
        kv.2 ≠ ([] : List Point3d) := fun kv hk => haddne kv (hmem kv hk).1
    unfold VoxelHashMap.update
    rw [hrem]
    refine ⟨_, rfl, ?_⟩
    intro kv hkv
    cases hagem : m.max_point_age_seconds with
    | none =>
        rw [if_neg (by simp only [add_points_age, hagem]; simp)] at hkv
        exact hm1ne kv hkv
    | some ma =>
        rw [if_pos (by simp only [add_points_age, hagem]; rfl)] at hkv
        exact (mem_aged_map (by simp only [add_points_age]; exact hagem) hkv).1
  · intro point
    obtain ⟨L, hL, -, -, -⟩ :=
      collectNeighbors_spec m point.to_na_vec_f64 hne (m.query_voxels point)
    unfold VoxelHashMap.get_closest_neighbor
    rw [hL]
    simp

/-- Witness for C9: the freshly constructed map has no cells, so the
invariant holds vacuously. -/
theorem update_preserves_nonempty_cells_witness :
    (∀ kv ∈ VoxelHashMap.default_values.map, kv.2 ≠ ([] : List Point3d)) ∧
      VoxelHashMap.default_values.get_closest_neighbor ⟨0, 0, 0, 0, 0⟩ ≠ none :=
  ⟨by intro kv hkv; simp [VoxelHashMap.default_values] at hkv,
    (update_preserves_nonempty_cells _
      (by intro kv hkv; simp [VoxelHashMap.default_values] at hkv)).2 ⟨0, 0, 0, 0, 0⟩⟩

/-- C6 (amended): provided the configured capacity is at least one, every
cell of the voxel map holds at most `max_points_per_voxel` points after any
`update`, and insertion never pushes into a cell that is already at
capacity.  (With a capacity of zero, insertion still creates a fresh cell
with one point, exceeding the limit.) -/
theorem update_capacity_invariant (m : VoxelHashMap)
    (hcap : 1 ≤ m.max_points_per_voxel)
    (hinv : ∀ kv ∈ m.map, kv.2.length ≤ m.max_points_per_voxel) :
    ∀ points current_origin now m2, m.update points current_origin now = some m2 →
      ∀ kv ∈ m2.map, kv.2.length ≤ m.max_points_per_voxel := by
  intro points o now m2 hup kv hkv
  obtain ⟨m1, hrem, hm2⟩ := update_eq_some m points o now hup
  have haddinv : ∀ kv ∈ (m.add_points points).map,
      kv.2.length ≤ m.max_points_per_voxel :=
    add_points_cells m points (fun c => c.length ≤ m.max_points_per_voxel)
      (fun pt _ => by simpa using hcap)
      (fun cell pt _ _ hlt => by
        simp only [List.length_append, List.length_singleton]
        omega)
      hinv
  obtain ⟨-, -, -, -, hmem⟩ := remove_points_too_far_some_inv _ o hrem
  have hm1inv : ∀ kv ∈ m1.map, kv.2.length ≤ m.max_points_per_voxel := fun kv hk =>
    haddinv kv (hmem kv hk).1
  cases hagem : m1.max_point_age_seconds with
  | none =>
      rw [hm2, if_neg (by rw [hagem]; simp)] at hkv
      exact hm1inv kv hkv
  | some ma =>
      rw [hm2, if_pos (by rw [hagem]; rfl)] at hkv
      obtain ⟨-, kv0, hkv0, -, hfeq⟩ := mem_aged_map hagem hkv
      rw [hfeq]
      exact le_trans (List.length_filter_le _ _) (hm1inv kv0 hkv0)

/-- Witness for the amended C6: the default configuration has capacity 20
and an empty map. -/
theorem update_capacity_invariant_witness :
    1 ≤ VoxelHashMap.default_values.max_points_per_voxel ∧
      (∀ points current_origin now m2,
        VoxelHashMap.default_values.update points current_origin now = some m2 →
          ∀ kv ∈ m2.map,
            kv.2.length ≤ VoxelHashMap.default_values.max_points_per_voxel) :=
  ⟨by norm_num [VoxelHashMap.default_values],
    update_capacity_invariant _ (by norm_num [VoxelHashMap.default_values])
      (by intro kv hkv; simp [VoxelHashMap.default_values] at hkv)⟩

/-- C10: `update_with_pose` changes only the spatial coordinates of the
batch: the transformed batch keeps every input point's intensity and
timestamp position by position, and every point stored in the updated map
either was already in the map or is a member of the transformed batch. -/
theorem update_with_pose_preserves_fields (m : VoxelHashMap) (points : List Point3d)
    (t_origin_current : Iso) (now : ℝ) :
    ((points.map (transformPoint t_origin_current)).map Point3d.intensity
        = points.map Point3d.intensity) ∧
    ((points.map (transformPoint t_origin_current)).map Point3d.timestamp
        = points.map Point3d.timestamp) ∧
    (∀ m2, m.update_with_pose points t_origin_current now = some m2 →
      ∀ kv ∈ m2.map, ∀ q ∈ kv.2,
        (∃ kv0 ∈ m.map, q ∈ kv0.2) ∨
          q ∈ points.map (transformPoint t_origin_current)) := by
  refine ⟨?_, ?_, ?_⟩
  · rw [List.map_map]; rfl
  · rw [List.map_map]; rfl
  · intro m2 hup kv hkv q hq
    unfold VoxelHashMap.update_with_pose at hup
    obtain ⟨m1, hrem, hm2⟩ := update_eq_some m _ _ now hup
    have haddmem : ∀ kv ∈ (m.add_points
        (points.map (transformPoint t_origin_current))).map,
        ∀ q ∈ kv.2, (∃ kv0 ∈ m.map, q ∈ kv0.2) ∨
          q ∈ points.map (transformPoint t_origin_current) :=
      add_points_cells m _
        (fun c => ∀ q ∈ c, (∃ kv0 ∈ m.map, q ∈ kv0.2) ∨
          q ∈ points.map (transformPoint t_origin_current))
        (fun pt hpt => by
          intro q hqm
          rw [List.mem_singleton] at hqm
          rw [hqm]; exact Or.inr hpt)
        (fun cell pt hpt hQ _ => by
          intro q hqm
          rcases List.mem_append.mp hqm with h1 | h2
          · exact hQ q h1
          · rw [List.mem_singleton] at h2; rw [h2]; exact Or.inr hpt)
        (fun kv hkv q hq => Or.inl ⟨kv, hkv, hq⟩)
    obtain ⟨-, -, -, -, hmem1⟩ := remove_points_too_far_some_inv _ _ hrem
    have hm1mem : ∀ kv ∈ m1.map, ∀ q ∈ kv.2, (∃ kv0 ∈ m.map, q ∈ kv0.2) ∨
        q ∈ points.map (transformPoint t_origin_current) :=
      fun kv hk => haddmem kv (hmem1 kv hk).1
    cases hagem : m1.max_point_age_seconds with
    | none =>
        rw [hm2, if_neg (by rw [hagem]; simp)] at hkv
        exact hm1mem kv hkv q hq
    | some ma =>
        rw [hm2, if_pos (by rw [hagem]; rfl)] at hkv
        obtain ⟨-, kv0, hkv0, -, hfeq⟩ := mem_aged_map hagem hkv
        rw [hfeq] at hq
        exact hm1mem kv0 hkv0 q (List.mem_of_mem_filter hq)

/-- C4 (amended): `update` performs insertion, then far-distance eviction,
then (only when an age limit is configured) age eviction, in that order;
when no age limit is configured, after `update` every retained cell's
representative (first) point has squared distance strictly below
`max_distance^2` from the update origin.  (With an age limit, age eviction
can remove a cell's first point after far eviction and promote a farther
point of the same voxel to representative, so the bound can fail.) -/
theorem update_far_eviction_no_age (m : VoxelHashMap)
    (hage : m.max_point_age_seconds = none) :
    ∀ points current_origin now m2, m.update points current_origin now = some m2 →
      ∀ kv ∈ m2.map, ∀ p, kv.2.head? = some p →
        quadranceV (subV p.to_na_vec_f64 current_origin)
          < m.max_distance * m.max_distance := by
  intro points o now m2 hup kv hkv p hp
  obtain ⟨m1, hrem, hm2⟩ := update_eq_some m points o now hup
  obtain ⟨-, -, -, hma, hmem⟩ := remove_points_too_far_some_inv _ o hrem
  have hage1 : m1.max_point_age_seconds = none := by rw [hma]; exact hage
  rw [hm2, if_neg (by rw [hage1]; simp)] at hkv
  have h2 := (hmem kv hkv).2
  cases hkv2 : kv.2 with
  | nil => rw [hkv2] at hp; exact absurd hp (by simp)
  | cons p0 t =>
      rw [hkv2] at hp
      simp only [List.head?_cons, Option.some.injEq] at hp
      rw [hkv2] at h2
      simp only [cellTooFar, not_le] at h2
      rw [← hp]
      exact h2

/-- Witness for the amended C4: a configuration without an age limit. -/
theorem update_far_eviction_no_age_witness :
    (⟨1, 100, 20, [], [], none⟩ : VoxelHashMap).max_point_age_seconds = none ∧
      (∀ points current_origin now m2,
        (⟨1, 100, 20, [], [], none⟩ : VoxelHashMap).update points current_origin now
            = some m2 →
          ∀ kv ∈ m2.map, ∀ p, kv.2.head? = some p →
            quadranceV (subV p.to_na_vec_f64 current_origin)
              < (⟨1, 100, 20, [], [], none⟩ : VoxelHashMap).max_distance *
                (⟨1, 100, 20, [], [], none⟩ : VoxelHashMap).max_distance) :=
  ⟨rfl, update_far_eviction_no_age _ rfl⟩

/-- Counterexample to C6 as stated: with `max_points_per_voxel = 0`, a single
`update` on the empty map creates a cell holding one point, which exceeds
the configured capacity. -/
theorem update_capacity_counterexample :
    VoxelHashMap.update ⟨1, 100, 0, [], [], none⟩ [⟨0, 0, 0, 0, 0⟩] ⟨0, 0, 0⟩ 0
        = some ⟨1, 100, 0, [(((0 : ℤ), (0 : ℤ), (0 : ℤ)), [⟨0, 0, 0, 0, 0⟩])],
            [⟨0, 0, 0, 0, 0⟩], none⟩ ∧
      ∃ kv ∈ (⟨1, 100, 0, [(((0 : ℤ), (0 : ℤ), (0 : ℤ)), [⟨0, 0, 0, 0, 0⟩])],
            [⟨0, 0, 0, 0, 0⟩], none⟩ : VoxelHashMap).map,
        (⟨1, 100, 0, [(((0 : ℤ), (0 : ℤ), (0 : ℤ)), [⟨0, 0, 0, 0, 0⟩])],
            [⟨0, 0, 0, 0, 0⟩], none⟩ : VoxelHashMap).max_points_per_voxel
          < kv.2.length := by
  constructor
  · have hadd : VoxelHashMap.add_points ⟨1, 100, 0, [], [], none⟩ [⟨0, 0, 0, 0, 0⟩]
        = ⟨1, 100, 0, [(((0 : ℤ), (0 : ℤ), (0 : ℤ)), [⟨0, 0, 0, 0, 0⟩])],
            [⟨0, 0, 0, 0, 0⟩], none⟩ := by
      unfold VoxelHashMap.add_points
      simp only [List.foldl_cons, List.foldl_nil]
      unfold addPointStep
      simp only [mapGet_nil]
      simp [na_vec_to_voxel, Point3d.to_na_vec_f64]
    have hrem : VoxelHashMap.remove_points_too_far
        (⟨1, 100, 0, [(((0 : ℤ), (0 : ℤ), (0 : ℤ)), [⟨0, 0, 0, 0, 0⟩])],
            [⟨0, 0, 0, 0, 0⟩], none⟩ : VoxelHashMap) ⟨0, 0, 0⟩
        = some ⟨1, 100, 0, [(((0 : ℤ), (0 : ℤ), (0 : ℤ)), [⟨0, 0, 0, 0, 0⟩])],
            [⟨0, 0, 0, 0, 0⟩], none⟩ := by
      have hfar : ¬ cellTooFar (⟨0, 0, 0⟩ : Vec3) ((100 : ℝ) * 100)
          [⟨0, 0, 0, 0, 0⟩] := by
        simp only [cellTooFar, quadranceV, subV, Point3d.to_na_vec_f64]
        norm_num
      rw [remove_points_too_far_eq_some]
      · simp [List.filter, hfar]
      · intro kv hkv
        simp only [List.mem_singleton] at hkv
        rw [hkv]
        simp
    unfold VoxelHashMap.update
    rw [hadd, hrem]
    simp
  · exact ⟨(((0 : ℤ), (0 : ℤ), (0 : ℤ)), [⟨0, 0, 0, 0, 0⟩]), by simp, by simp⟩

/-- Counterexample to C4 as stated: with an age limit configured, one
`update` inserts a near old point and a farther fresh point into the same
voxel; far-distance eviction keeps the cell because its representative (the
near point) is in range, and age eviction then removes that representative,
leaving a retained cell whose first point is at squared distance at least
`max_distance^2` from the update origin. -/
theorem update_far_eviction_counterexample :
    VoxelHashMap.update ⟨1, 21/2, 4, [], [], some 5⟩
        [⟨51/5, 0, 0, 0, 90⟩, ⟨54/5, 0, 0, 0, 99⟩] ⟨0, 0, 0⟩ 100
      = some ⟨1, 21/2, 4,
          [(((10 : ℤ), (0 : ℤ), (0 : ℤ)), [⟨54/5, 0, 0, 0, 99⟩])],
          [⟨51/5, 0, 0, 0, 90⟩, ⟨54/5, 0, 0, 0, 99⟩], some 5⟩ ∧
      ∃ kv ∈ (⟨1, 21/2, 4,
          [(((10 : ℤ), (0 : ℤ), (0 : ℤ)), [⟨54/5, 0, 0, 0, 99⟩])],
          [⟨51/5, 0, 0, 0, 90⟩, ⟨54/5, 0, 0, 0, 99⟩], some 5⟩ : VoxelHashMap).map,
        ∃ p, kv.2.head? = some p ∧
          (⟨1, 21/2, 4,
            [(((10 : ℤ), (0 : ℤ), (0 : ℤ)), [⟨54/5, 0, 0, 0, 99⟩])],
            [⟨51/5, 0, 0, 0, 90⟩, ⟨54/5, 0, 0, 0, 99⟩],
            some 5⟩ : VoxelHashMap).max_distance *
            (⟨1, 21/2, 4,
              [(((10 : ℤ), (0 : ℤ), (0 : ℤ)), [⟨54/5, 0, 0, 0, 99⟩])],
              [⟨51/5, 0, 0, 0, 90⟩, ⟨54/5, 0, 0, 0, 99⟩],
              some 5⟩ : VoxelHashMap).max_distance
            ≤ quadranceV (subV p.to_na_vec_f64 ⟨0, 0, 0⟩) := by
  constructor
  · have hv1 : na_vec_to_voxel (Point3d.to_na_vec_f64 ⟨51/5, 0, 0, 0, 90⟩) (1 : ℝ)
        = ((10, 0, 0) : Voxel) := by
      simp only [na_vec_to_voxel, Point3d.to_na_vec_f64, div_one, Prod.mk.injEq]
      norm_num
    have hv2 : na_vec_to_voxel (Point3d.to_na_vec_f64 ⟨54/5, 0, 0, 0, 99⟩) (1 : ℝ)
        = ((10, 0, 0) : Voxel) := by
      simp only [na_vec_to_voxel, Point3d.to_na_vec_f64, div_one, Prod.mk.injEq]
      norm_num
    have hq : quadranceV (subV (Point3d.to_na_vec_f64 ⟨51/5, 0, 0, 0, 90⟩)
        (Point3d.to_na_vec_f64 ⟨54/5, 0, 0, 0, 99⟩)) = 9/25 := by
      simp only [quadranceV, subV, Point3d.to_na_vec_f64]
      norm_num
    have hnlt : ¬ (normV (subV (Point3d.to_na_vec_f64 ⟨51/5, 0, 0, 0, 90⟩)
        (Point3d.to_na_vec_f64 ⟨54/5, 0, 0, 0, 99⟩))
          < (⟨1, 21/2, 4, [], [], some 5⟩ : VoxelHashMap).map_resolution) := by
      rw [normV, hq]
      unfold VoxelHashMap.map_resolution
      refine not_lt.mpr (Real.sqrt_le_sqrt ?_)
      norm_num
    have hadd : VoxelHashMap.add_points ⟨1, 21/2, 4, [], [], some 5⟩
        [⟨51/5, 0, 0, 0, 90⟩, ⟨54/5, 0, 0, 0, 99⟩]
        = ⟨1, 21/2, 4,
            [(((10 : ℤ), (0 : ℤ), (0 : ℤ)),
              [⟨51/5, 0, 0, 0, 90⟩, ⟨54/5, 0, 0, 0, 99⟩])],
            [⟨51/5, 0, 0, 0, 90⟩, ⟨54/5, 0, 0, 0, 99⟩], some 5⟩ := by
      unfold VoxelHashMap.add_points
      simp only [List.foldl_cons, List.foldl_nil]
      unfold addPointStep
      have hg : mapGet [(((10 : ℤ), (0 : ℤ), (0 : ℤ)),
          [(⟨51/5, 0, 0, 0, 90⟩ : Point3d)])] ((10, 0, 0) : Voxel)
          = some [(⟨51/5, 0, 0, 0, 90⟩ : Point3d)] := by
        rw [mapGet_cons, if_pos rfl]
      simp only [mapGet_nil, hv1, hv2, List.nil_append, hg]
      split_ifs with hcond
      · exfalso
        rcases hcond with h | ⟨vpt, hvpt, hlt⟩
        · norm_num at h
        · rw [List.mem_singleton] at hvpt
          subst hvpt
          exact hnlt hlt
      · simp [mapSet]
    have hrem : VoxelHashMap.remove_points_too_far
        (⟨1, 21/2, 4,
            [(((10 : ℤ), (0 : ℤ), (0 : ℤ)),
              [⟨51/5, 0, 0, 0, 90⟩, ⟨54/5, 0, 0, 0, 99⟩])],
            [⟨51/5, 0, 0, 0, 90⟩, ⟨54/5, 0, 0, 0, 99⟩], some 5⟩ : VoxelHashMap)
        ⟨0, 0, 0⟩
        = some ⟨1, 21/2, 4,
            [(((10 : ℤ), (0 : ℤ), (0 : ℤ)),
              [⟨51/5, 0, 0, 0, 90⟩, ⟨54/5, 0, 0, 0, 99⟩])],
            [⟨51/5, 0, 0, 0, 90⟩, ⟨54/5, 0, 0, 0, 99⟩], some 5⟩ := by
      have hfar : ¬ cellTooFar (⟨0, 0, 0⟩ : Vec3) ((21/2 : ℝ) * (21/2))
          [(⟨51/5, 0, 0, 0, 90⟩ : Point3d), ⟨54/5, 0, 0, 0, 99⟩] := by
        simp only [cellTooFar, quadranceV, subV, Point3d.to_na_vec_f64]
        norm_num
      rw [remove_points_too_far_eq_some]
      · simp [List.filter, hfar]
      · intro kv hkv
        simp only [List.mem_singleton] at hkv
        rw [hkv]
        simp
    have haged : VoxelHashMap.remove_aged_points
        (⟨1, 21/2, 4,
            [(((10 : ℤ), (0 : ℤ), (0 : ℤ)),
              [⟨51/5, 0, 0, 0, 90⟩, ⟨54/5, 0, 0, 0, 99⟩])],
            [⟨51/5, 0, 0, 0, 90⟩, ⟨54/5, 0, 0, 0, 99⟩], some 5⟩ : VoxelHashMap) 100
        = ⟨1, 21/2, 4,
            [(((10 : ℤ), (0 : ℤ), (0 : ℤ)), [⟨54/5, 0, 0, 0, 99⟩])],
            [⟨51/5, 0, 0, 0, 90⟩, ⟨54/5, 0, 0, 0, 99⟩], some 5⟩ := by
      rw [remove_aged_points_some _ 100 5 rfl]
      have h1 : ¬ ((100 : ℝ) - 90 ≤ 5) := by norm_num
      have h2 : (100 : ℝ) - 99 ≤ 5 := by norm_num
      simp [List.filter, h1, h2]
    unfold VoxelHashMap.update
    rw [hadd, hrem]
    simp only [Option.isSome_some, if_true, Option.some.injEq]
    exact haged
  · refine ⟨(((10 : ℤ), (0 : ℤ), (0 : ℤ)), [⟨54/5, 0, 0, 0, 99⟩]), by simp,
      ⟨54/5, 0, 0, 0, 99⟩, rfl, ?_⟩
    simp only [quadranceV, subV, Point3d.to_na_vec_f64]
    norm_num

/-- C7: inserting a point into an unoccupied voxel and then inserting a
second point of the same voxel within the derived minimum resolution
distance (in particular the same point again) leaves exactly one stored
point in the cell: the duplicate is dropped, not appended. -/
theorem add_points_dedup (m : VoxelHashMap) (p q : Point3d)
    (hcell : mapGet m.map (na_vec_to_voxel p.to_na_vec_f64 m.voxel_size) = none)
    (hvox : na_vec_to_voxel q.to_na_vec_f64 m.voxel_size
      = na_vec_to_voxel p.to_na_vec_f64 m.voxel_size)
    (hclose : normV (subV p.to_na_vec_f64 q.to_na_vec_f64) < m.map_resolution) :
    mapGet ((m.add_points [p]).add_points [q]).map
      (na_vec_to_voxel p.to_na_vec_f64 m.voxel_size) = some [p] := by
  have h1 : (m.add_points [p]).map
      = m.map ++ [(na_vec_to_voxel p.to_na_vec_f64 m.voxel_size, [p])] := by
    unfold VoxelHashMap.add_points
    simp only [List.foldl_cons, List.foldl_nil]
    unfold addPointStep
    simp only [hcell]
  have hget1 : mapGet (m.add_points [p]).map
      (na_vec_to_voxel p.to_na_vec_f64 m.voxel_size) = some [p] := by
    rw [h1, mapGet_append_right _ _ hcell, mapGet_cons, if_pos rfl]
  have h2 : ((m.add_points [p]).add_points [q]).map = (m.add_points [p]).map := by
    generalize hm1 : m.add_points [p] = m1 at hget1
    have hvs : m1.voxel_size = m.voxel_size := by rw [← hm1]; rfl
    have hres : m1.map_resolution = m.map_resolution := by
      rw [← hm1]; rfl
    unfold VoxelHashMap.add_points
    simp only [List.foldl_cons, List.foldl_nil]
    unfold addPointStep
    simp only [hvs, hvox, hget1]
    rw [if_pos]
    exact Or.inr ⟨p, List.mem_singleton.mpr rfl, by rw [hres]; exact hclose⟩
  rw [h2]
  exact hget1

/-- Witness for C7: inserting the origin point twice into the default map
keeps a single stored copy. -/
theorem add_points_dedup_witness :
    mapGet VoxelHashMap.default_values.map
        (na_vec_to_voxel (Point3d.to_na_vec_f64 ⟨0, 0, 0, 0, 0⟩)
          VoxelHashMap.default_values.voxel_size) = none ∧
      normV (subV (Point3d.to_na_vec_f64 ⟨0, 0, 0, 0, 0⟩)
          (Point3d.to_na_vec_f64 ⟨0, 0, 0, 0, 0⟩))
        < VoxelHashMap.default_values.map_resolution ∧
      mapGet ((VoxelHashMap.default_values.add_points
          [⟨0, 0, 0, 0, 0⟩]).add_points [⟨0, 0, 0, 0, 0⟩]).map
        (na_vec_to_voxel (Point3d.to_na_vec_f64 ⟨0, 0, 0, 0, 0⟩)
          VoxelHashMap.default_values.voxel_size) = some [⟨0, 0, 0, 0, 0⟩] := by
  have hclose : normV (subV (Point3d.to_na_vec_f64 ⟨0, 0, 0, 0, 0⟩)
      (Point3d.to_na_vec_f64 ⟨0, 0, 0, 0, 0⟩))
      < VoxelHashMap.default_values.map_resolution := by
    have hz : normV (subV (Point3d.to_na_vec_f64 ⟨0, 0, 0, 0, 0⟩)
        (Point3d.to_na_vec_f64 ⟨0, 0, 0, 0, 0⟩)) = 0 := by
      simp only [normV, quadranceV, subV, Point3d.to_na_vec_f64]
      norm_num
    rw [hz]
    unfold VoxelHashMap.map_resolution VoxelHashMap.default_values
    apply Real.sqrt_pos.mpr
    norm_num
  exact ⟨rfl, hclose,
    add_points_dedup VoxelHashMap.default_values ⟨0, 0, 0, 0, 0⟩ ⟨0, 0, 0, 0, 0⟩
      rfl rfl hclose⟩

theorem mem_intRange {lo hi a : ℤ} : a ∈ intRange lo hi ↔ lo ≤ a ∧ a < hi := by
  unfold intRange
  constructor
  · intro h
    rcases List.mem_map.mp h with ⟨i, hi2, rfl⟩
    rw [List.mem_range] at hi2
    omega
  · rintro ⟨h1, h2⟩
    refine List.mem_map.mpr ⟨(a - lo).toNat, ?_, ?_⟩
    · rw [List.mem_range]; omega
    · omega

theorem mem_get_adjacent_voxels {v u : Voxel} {r : ℤ} :
    u ∈ get_adjacent_voxels v r ↔
      (v.1 - r ≤ u.1 ∧ u.1 ≤ v.1 + r) ∧ (v.2.1 - r ≤ u.2.1 ∧ u.2.1 ≤ v.2.1 + r) ∧
        (v.2.2 - r ≤ u.2.2 ∧ u.2.2 ≤ v.2.2 + r) := by
  unfold get_adjacent_voxels
  simp only [List.mem_flatMap, List.mem_map, mem_intRange]
  constructor
  · rintro ⟨x, ⟨hx1, hx2⟩, y, ⟨hy1, hy2⟩, z, ⟨hz1, hz2⟩, rfl⟩
    simp only
    omega
  · rintro ⟨⟨h1, h2⟩, ⟨h3, h4⟩, ⟨h5, h6⟩⟩
    exact ⟨u.1, by omega, u.2.1, by omega, u.2.2, by omega, rfl⟩

/-- C3: `get_closest_neighbor` examines exactly the 3x3x3 block of voxels
around the query point's voxel and, provided every stored cell is non-empty
(the map invariant), returns without panicking: the result is `none` exactly
when all 27 queried voxels are unoccupied (so the empty map yields `none`,
not an error), and otherwise it is a stored point of one of the 27 cells at
minimal distance to the query, paired with that distance. -/
theorem get_closest_neighbor_correct (m : VoxelHashMap) (point : Point3d)
    (hne : ∀ kv ∈ m.map, kv.2 ≠ ([] : List Point3d)) :
    ∃ res, m.get_closest_neighbor point = some res ∧
      (∀ u, u ∈ m.query_voxels point ↔
        ((point_to_voxel point m.voxel_size).1 - 1 ≤ u.1 ∧
          u.1 ≤ (point_to_voxel point m.voxel_size).1 + 1) ∧
        ((point_to_voxel point m.voxel_size).2.1 - 1 ≤ u.2.1 ∧
          u.2.1 ≤ (point_to_voxel point m.voxel_size).2.1 + 1) ∧
        ((point_to_voxel point m.voxel_size).2.2 - 1 ≤ u.2.2 ∧
          u.2.2 ≤ (point_to_voxel point m.voxel_size).2.2 + 1)) ∧
      (res = none ↔ ∀ u ∈ m.query_voxels point, mapGet m.map u = none) ∧
      (∀ nb, res = some nb →
        (∃ u ∈ m.query_voxels point, ∃ cell, mapGet m.map u = some cell ∧
          nb.1 ∈ cell) ∧
        nb.2 = normV (subV nb.1.to_na_vec_f64 point.to_na_vec_f64) ∧
        (∀ u ∈ m.query_voxels point, ∀ cell, mapGet m.map u = some cell →
          ∀ q ∈ cell,
            nb.2 ≤ normV (subV q.to_na_vec_f64 point.to_na_vec_f64))) := by
  obtain ⟨L, hL, hLnil, hLmem, hLmin⟩ :=
    collectNeighbors_spec m point.to_na_vec_f64 hne (m.query_voxels point)
  refine ⟨reduceNeighbors L, ?_, ?_, ?_, ?_⟩
  · unfold VoxelHashMap.get_closest_neighbor
    rw [hL]
    rfl
  · intro u; exact mem_get_adjacent_voxels
  · cases L with
    | nil =>
        simp only [reduceNeighbors]
        exact iff_of_true trivial (hLnil.mp rfl)
    | cons h t =>
        simp only [reduceNeighbors]
        constructor
        · intro hc; exact absurd hc (by simp)
        · intro hall
          have hLe : (h :: t : List (Point3d × ℝ)) = [] := hLnil.mpr hall
          exact absurd hLe (by simp)
  · intro nb hnb
    cases L with
    | nil => simp only [reduceNeighbors] at hnb; exact absurd hnb (by simp)
    | cons hh tt =>
        simp only [reduceNeighbors, Option.some.injEq] at hnb
        have hmem : nb ∈ hh :: tt := by
          rw [← hnb]; exact minByFold_mem Prod.snd tt hh
        have hminL : ∀ x ∈ hh :: tt, nb.2 ≤ x.2 := by
          intro x hx
          rw [← hnb]
          exact minByFold_le Prod.snd tt hh x hx
        obtain ⟨u, hu, cell, hcell, hnb1, hnb2⟩ := hLmem nb hmem
        refine ⟨⟨u, hu, cell, hcell, hnb1⟩, hnb2, ?_⟩
        intro u2 hu2 cell2 hcell2 q hq
        obtain ⟨nb2, hnb2L, hle⟩ := hLmin u2 hu2 cell2 hcell2 q hq
        exact le_trans (hminL nb2 hnb2L) hle

/-- Witness for C3: a one-cell map whose cells are non-empty; the search
returns a result. -/
theorem get_closest_neighbor_correct_witness :
    (∀ kv ∈ ({ VoxelHashMap.default_values with
        map := [(((0 : ℤ), (0 : ℤ), (0 : ℤ)), [⟨0, 0, 0, 0, 0⟩])] } :
          VoxelHashMap).map, kv.2 ≠ ([] : List Point3d)) ∧
      ∃ res, ({ VoxelHashMap.default_values with
        map := [(((0 : ℤ), (0 : ℤ), (0 : ℤ)), [⟨0, 0, 0, 0, 0⟩])] } :
          VoxelHashMap).get_closest_neighbor ⟨0, 0, 0, 0, 0⟩ = some res := by
  have hne : ∀ kv ∈ ({ VoxelHashMap.default_values with
      map := [(((0 : ℤ), (0 : ℤ), (0 : ℤ)), [⟨0, 0, 0, 0, 0⟩])] } :
        VoxelHashMap).map, kv.2 ≠ ([] : List Point3d) := by
    intro kv hkv
    simp only [List.mem_singleton] at hkv
    rw [hkv]
    simp
  refine ⟨hne, ?_⟩
  obtain ⟨res, hres, -, -, -⟩ :=
    get_closest_neighbor_correct _ ⟨0, 0, 0, 0, 0⟩ hne
  exact ⟨res, hres⟩
